import Mathlib

/-!
Shallow embedding of the banking payment engine (`src/lib.rs`).

Modelling choices:
* `rust_decimal::Decimal` values are embedded as `ℚ`: the engine only uses
  exact `+`, `-` and `>=` on amounts, and decimals form a subset of the
  rationals on which those operations agree.
* `u16` client ids and `u32` transaction ids are embedded as `Nat`; the code
  only compares them for equality.
* `HashMap<u32, TransactionHistoryRecord>` (resp. `HashMap<u16, ClientAccount>`)
  is embedded as an association list with first-occurrence lookup and
  replace-on-insert semantics, matching `HashMap::insert` / `get` / `get_mut`.
* Rust methods mutating `&mut self` become functions returning the new value;
  `Result<(), T>` becomes `Except T ClientAccount` (the `Err` case leaves the
  Rust receiver unmodified, which the embedding reflects where needed).
-/

/-- `Transaction` enum from `src/lib.rs`. -/
inductive Transaction where
  | Deposit (client : Nat) (transaction_id : Nat) (amount : ℚ)
  | Withdrawal (client : Nat) (transaction_id : Nat) (amount : ℚ)
  deriving DecidableEq, Repr

/-- `Transaction::get_client_id`. -/
def Transaction.get_client_id : Transaction → Nat
  | .Deposit client _ _ => client
  | .Withdrawal client _ _ => client

/-- `Transaction::get_transaction_id`. -/
def Transaction.get_transaction_id : Transaction → Nat
  | .Deposit _ transaction_id _ => transaction_id
  | .Withdrawal _ transaction_id _ => transaction_id

/-- The amount carried by a transaction (both variants carry one). -/
def Transaction.amount : Transaction → ℚ
  | .Deposit _ _ amount => amount
  | .Withdrawal _ _ amount => amount

/-- `DisputeAction` enum from `src/lib.rs`. -/
inductive DisputeAction where
  | Dispute (client : Nat) (referenced_transaction_id : Nat)
  | Resolve (client : Nat) (referenced_transaction_id : Nat)
  | Chargeback (client : Nat) (referenced_transaction_id : Nat)
  deriving DecidableEq, Repr

/-- `DisputeAction::get_client_id`. -/
def DisputeAction.get_client_id : DisputeAction → Nat
  | .Dispute client _ => client
  | .Resolve client _ => client
  | .Chargeback client _ => client

/-- `DisputeAction::get_referenced_transaction_id`. -/
def DisputeAction.get_referenced_transaction_id : DisputeAction → Nat
  | .Dispute _ id => id
  | .Resolve _ id => id
  | .Chargeback _ id => id

/-- `TransactionState` enum from `src/lib.rs` (see its state diagram). -/
inductive TransactionState where
  | Accepted
  | Rejected
  | Disputed
  | Resolved
  | Chargebacked
  deriving DecidableEq, Repr

/-- `TransactionHistoryRecord` struct from `src/lib.rs`. -/
structure TransactionHistoryRecord where
  transaction : Transaction
  state : TransactionState
  deriving DecidableEq, Repr

/-- `TransactionHistoryRecord::new`. -/
def TransactionHistoryRecord.new (transaction : Transaction) (accepted : Bool) :
    TransactionHistoryRecord :=
  { transaction := transaction
    state := if accepted then TransactionState.Accepted else TransactionState.Rejected }

/-- First-occurrence lookup in an association list, embedding `HashMap::get`. -/
def alistLookup {α : Type} : List (Nat × α) → Nat → Option α
  | [], _ => none
  | (k, v) :: rest, key => if k = key then some v else alistLookup rest key

/-- Insert-or-replace in an association list, embedding `HashMap::insert`. -/
def alistInsert {α : Type} : List (Nat × α) → Nat → α → List (Nat × α)
  | [], key, v => [(key, v)]
  | (k, w) :: rest, key, v =>
      if k = key then (k, v) :: rest else (k, w) :: alistInsert rest key v

/-- The keys of an association list. -/
def alistKeys {α : Type} (l : List (Nat × α)) : List Nat :=
  l.map Prod.fst

/-- In-place update `*state = s` of the record stored at `key`, embedding the
`get_mut` + assignment pattern of `ClientAccount::add_dispute_action`. -/
def set_state : List (Nat × TransactionHistoryRecord) → Nat → TransactionState →
    List (Nat × TransactionHistoryRecord)
  | [], _, _ => []
  | (k, r) :: rest, key, s =>
      if k = key then (k, { r with state := s }) :: rest
      else (k, r) :: set_state rest key s

/-- `ClientAccount` struct from `src/lib.rs`. -/
structure ClientAccount where
  id : Nat
  transaction_history : List (Nat × TransactionHistoryRecord)
  dispute_history : List DisputeAction
  available : ℚ
  held : ℚ
  locked : Bool
  deriving DecidableEq, Repr

/-- `ClientAccount::new`. -/
def ClientAccount.new (id : Nat) : ClientAccount :=
  { id := id
    transaction_history := []
    dispute_history := []
    available := 0
    held := 0
    locked := false }

/-- `ClientAccount::withdrawal_amount_allowed`. -/
def ClientAccount.withdrawal_amount_allowed (a : ClientAccount)
    (withdrawal_amount : ℚ) : Bool :=
  decide (withdrawal_amount ≤ a.available)

/-- `ClientAccount::add_transaction`. -/
def ClientAccount.add_transaction (a : ClientAccount) (transaction : Transaction) :
    Except Transaction ClientAccount :=
  if transaction.get_client_id ≠ a.id then
    .error transaction
  else if a.locked then
    -- Prevent any transaction from having an effect when the client is locked.
    .ok { a with
            transaction_history :=
              alistInsert a.transaction_history transaction.get_transaction_id
                (TransactionHistoryRecord.new transaction false) }
  else
    match transaction with
    | .Deposit _ _ amount =>
        .ok { a with
                available := a.available + amount
                transaction_history :=
                  alistInsert a.transaction_history transaction.get_transaction_id
                    (TransactionHistoryRecord.new transaction true) }
    | .Withdrawal _ _ amount =>
        if a.withdrawal_amount_allowed amount then
          .ok { a with
                  available := a.available - amount
                  transaction_history :=
                    alistInsert a.transaction_history transaction.get_transaction_id
                      (TransactionHistoryRecord.new transaction true) }
        else
          .ok { a with
                  transaction_history :=
                    alistInsert a.transaction_history transaction.get_transaction_id
                      (TransactionHistoryRecord.new transaction false) }

/-- `ClientAccount::add_dispute_action`, with one Lean branch per arm of the
`(state, action)` match in the source; NOOP arms return the account unchanged. -/
def ClientAccount.add_dispute_action (a : ClientAccount) (dispute_action : DisputeAction) :
    Except DisputeAction ClientAccount :=
  if dispute_action.get_client_id ≠ a.id then
    .error dispute_action
  else if a.locked then
    -- Prevent any transaction from having an effect when the client is locked.
    .ok { a with dispute_history := a.dispute_history ++ [dispute_action] }
  else
    let referenced_transaction_id := dispute_action.get_referenced_transaction_id
    match alistLookup a.transaction_history referenced_transaction_id with
    | none =>
        -- Nothing to do, since the transaction doesn't exist (or not for this user).
        .ok a
    | some referenced_transaction =>
        match referenced_transaction.state, dispute_action with
        | .Accepted, .Dispute _ _ =>
            let a1 :=
              match referenced_transaction.transaction with
              | .Deposit _ _ amount =>
                  { a with available := a.available - amount, held := a.held + amount }
              | .Withdrawal _ _ _ => a
            .ok { a1 with
                    dispute_history := a1.dispute_history ++ [dispute_action]
                    transaction_history :=
                      set_state a1.transaction_history referenced_transaction_id
                        TransactionState.Disputed }
        | .Rejected, .Dispute _ _ => .ok a
        | .Disputed, .Dispute _ _ => .ok a
        | .Resolved, .Dispute _ _ => .ok a
        | .Chargebacked, .Dispute _ _ => .ok a
        | .Disputed, .Resolve _ _ =>
            let a1 :=
              match referenced_transaction.transaction with
              | .Deposit _ _ amount =>
                  { a with available := a.available + amount, held := a.held - amount }
              | .Withdrawal _ _ amount =>
                  { a with available := a.available + amount }
            .ok { a1 with
                    dispute_history := a1.dispute_history ++ [dispute_action]
                    transaction_history :=
                      set_state a1.transaction_history referenced_transaction_id
                        TransactionState.Resolved }
        | .Accepted, .Resolve _ _ => .ok a
        | .Rejected, .Resolve _ _ => .ok a
        | .Resolved, .Resolve _ _ => .ok a
        | .Chargebacked, .Resolve _ _ => .ok a
        | .Disputed, .Chargeback _ _ =>
            let a1 :=
              match referenced_transaction.transaction with
              | .Deposit _ _ amount => { a with held := a.held - amount }
              | .Withdrawal _ _ _ => a
            .ok { a1 with
                    locked := true
                    dispute_history := a1.dispute_history ++ [dispute_action]
                    transaction_history :=
                      set_state a1.transaction_history referenced_transaction_id
                        TransactionState.Chargebacked }
        | .Accepted, .Chargeback _ _ => .ok a
        | .Rejected, .Chargeback _ _ => .ok a
        | .Resolved, .Chargeback _ _ => .ok a
        | .Chargebacked, .Chargeback _ _ => .ok a

/-- `ClientAccount::total`. -/
def ClientAccount.total (a : ClientAccount) : ℚ :=
  a.available + a.held

/-- A well-typed event consumed by the engine: a transaction or a dispute action. -/
inductive Event where
  | transaction (t : Transaction)
  | disputeAction (d : DisputeAction)
  deriving DecidableEq, Repr

/-- Apply one event to a single account.  On the `Err` branch of the Rust
methods the receiver is left unmodified, so the embedding returns `a` there. -/
def ClientAccount.applyEvent (a : ClientAccount) : Event → ClientAccount
  | .transaction t =>
      match a.add_transaction t with
      | .ok a2 => a2
      | .error _ => a
  | .disputeAction d =>
      match a.add_dispute_action d with
      | .ok a2 => a2
      | .error _ => a

/-- Apply a sequence of events to a single account, in order. -/
def ClientAccount.applyEvents (a : ClientAccount) (events : List Event) : ClientAccount :=
  events.foldl ClientAccount.applyEvent a

/-- `PaymentEngine` struct from `src/lib.rs`. -/
structure PaymentEngine where
  state : List (Nat × ClientAccount)
  deriving DecidableEq, Repr

/-- `PaymentEngine::default`. -/
def PaymentEngine.default : PaymentEngine := { state := [] }

/-- `PaymentEngine::add_transaction`.  The `.expect` panic on the inner `Err`
is embedded as `none`; `entry(..).or_insert_with(..)` plus in-place mutation is
embedded as lookup-or-create followed by insert-back. -/
def PaymentEngine.add_transaction (e : PaymentEngine) (transaction : Transaction) :
    Option PaymentEngine :=
  let client :=
    match alistLookup e.state transaction.get_client_id with
    | some c => c
    | none => ClientAccount.new transaction.get_client_id
  match client.add_transaction transaction with
  | .error _ => none
  | .ok c2 => some { state := alistInsert e.state transaction.get_client_id c2 }

/-- `PaymentEngine::add_dispute_action`, embedded like
`PaymentEngine.add_transaction`. -/
def PaymentEngine.add_dispute_action (e : PaymentEngine) (dispute_action : DisputeAction) :
    Option PaymentEngine :=
  let client :=
    match alistLookup e.state dispute_action.get_client_id with
    | some c => c
    | none => ClientAccount.new dispute_action.get_client_id
  match client.add_dispute_action dispute_action with
  | .error _ => none
  | .ok c2 => some { state := alistInsert e.state dispute_action.get_client_id c2 }

/-- Feed one event into the engine (`none` = a `.expect` panic). -/
def PaymentEngine.applyEvent (e : PaymentEngine) : Event → Option PaymentEngine
  | .transaction t => e.add_transaction t
  | .disputeAction d => e.add_dispute_action d

/-- Feed a list of events into an engine, stopping at a panic. -/
def PaymentEngine.runFrom (e : PaymentEngine) : List Event → Option PaymentEngine
  | [] => some e
  | ev :: rest =>
      match e.applyEvent ev with
      | none => none
      | some e2 => e2.runFrom rest

/-- Feed a list of events into a fresh engine. -/
def PaymentEngine.run (events : List Event) : Option PaymentEngine :=
  PaymentEngine.default.runFrom events

/-! ### Association-list lemmas -/

theorem alistKeys_nil {α : Type} : alistKeys ([] : List (Nat × α)) = [] := rfl

theorem alistKeys_cons {α : Type} (p : Nat × α) (l : List (Nat × α)) :
    alistKeys (p :: l) = p.1 :: alistKeys l := rfl

theorem alistLookup_insert {α : Type} (l : List (Nat × α)) (k key : Nat) (v : α) :
    alistLookup (alistInsert l k v) key = if key = k then some v else alistLookup l key := by
  induction l with
  | nil =>
      by_cases h : key = k
      · subst h; simp [alistInsert, alistLookup]
      · simp [alistInsert, alistLookup, h, Ne.symm h]
  | cons p rest ih =>
      obtain ⟨k1, v1⟩ := p
      by_cases h1 : k1 = k
      · subst h1
        by_cases h2 : key = k1
        · subst h2; simp [alistInsert, alistLookup]
        · simp [alistInsert, alistLookup, h2, Ne.symm h2]
      · by_cases h2 : k1 = key
        · subst h2
          simp [alistInsert, alistLookup, h1, Ne.symm h1]
        · simp [alistInsert, alistLookup, h1, h2, ih]

theorem alistLookup_set_state (l : List (Nat × TransactionHistoryRecord))
    (k key : Nat) (s : TransactionState) :
    alistLookup (set_state l k s) key =
      if key = k then (alistLookup l key).map (fun r => { r with state := s })
      else alistLookup l key := by
  induction l with
  | nil =>
      by_cases h : key = k <;> simp [set_state, alistLookup, h]
  | cons p rest ih =>
      obtain ⟨k1, v1⟩ := p
      by_cases h1 : k1 = k
      · subst h1
        by_cases h2 : key = k1
        · subst h2; simp [set_state, alistLookup]
        · simp [set_state, alistLookup, h2, Ne.symm h2]
      · by_cases h2 : k1 = key
        · subst h2
          simp [set_state, alistLookup, h1, Ne.symm h1]
        · simp [set_state, alistLookup, h1, h2, ih]

theorem alistKeys_set_state (l : List (Nat × TransactionHistoryRecord))
    (k : Nat) (s : TransactionState) :
    alistKeys (set_state l k s) = alistKeys l := by
  induction l with
  | nil => rfl
  | cons p rest ih =>
      obtain ⟨k1, v1⟩ := p
      by_cases h1 : k1 = k
      · simp [set_state, alistKeys_cons, h1]
      · simp [set_state, alistKeys_cons, h1, ih]

theorem alistKeys_insert_mem {α : Type} (l : List (Nat × α)) (k key : Nat) (v : α) :
    key ∈ alistKeys (alistInsert l k v) ↔ key = k ∨ key ∈ alistKeys l := by
  induction l with
  | nil => simp [alistInsert, alistKeys]
  | cons p rest ih =>
      obtain ⟨k1, v1⟩ := p
      by_cases h1 : k1 = k
      · subst h1
        have he : alistInsert ((k1, v1) :: rest) k1 v = (k1, v) :: rest := by
          simp [alistInsert]
        rw [he, alistKeys_cons, alistKeys_cons]
        simp only [List.mem_cons]
        tauto
      · have he : alistInsert ((k1, v1) :: rest) k v = (k1, v1) :: alistInsert rest k v := by
          simp [alistInsert, h1]
        rw [he, alistKeys_cons, alistKeys_cons]
        simp only [List.mem_cons, ih]
        tauto

theorem alistKeys_insert_nodup {α : Type} (l : List (Nat × α)) (k : Nat) (v : α)
    (h : (alistKeys l).Nodup) : (alistKeys (alistInsert l k v)).Nodup := by
  induction l with
  | nil => simp [alistInsert, alistKeys]
  | cons p rest ih =>
      obtain ⟨k1, v1⟩ := p
      rw [alistKeys_cons, List.nodup_cons] at h
      by_cases h1 : k1 = k
      · subst h1
        have he : alistInsert ((k1, v1) :: rest) k1 v = (k1, v) :: rest := by
          simp [alistInsert]
        rw [he, alistKeys_cons, List.nodup_cons]
        exact h
      · have he : alistInsert ((k1, v1) :: rest) k v = (k1, v1) :: alistInsert rest k v := by
          simp [alistInsert, h1]
        rw [he, alistKeys_cons, List.nodup_cons]
        constructor
        · intro hmem
          rcases (alistKeys_insert_mem rest k k1 v).mp hmem with h2 | h2
          · exact h1 h2
          · exact h.1 h2
        · exact ih h.2

theorem mem_alistInsert {α : Type} (l : List (Nat × α)) (k : Nat) (v : α)
    (p : Nat × α) (h : p ∈ alistInsert l k v) : p = (k, v) ∨ p ∈ l := by
  induction l with
  | nil => simpa [alistInsert] using h
  | cons q rest ih =>
      obtain ⟨k1, v1⟩ := q
      by_cases h1 : k1 = k
      · subst h1
        simp [alistInsert] at h
        rcases h with h | h
        · left; simp [h]
        · right; simp [h]
      · simp [alistInsert, h1] at h
        rcases h with h | h
        · right; simp [h]
        · rcases ih h with h2 | h2
          · left; exact h2
          · right; simp [h2]

theorem mem_set_state (l : List (Nat × TransactionHistoryRecord)) (k : Nat)
    (s : TransactionState) (p : Nat × TransactionHistoryRecord)
    (h : p ∈ set_state l k s) : ∃ q ∈ l, p.2.transaction = q.2.transaction := by
  induction l with
  | nil => rw [set_state] at h; simp at h
  | cons q rest ih =>
      obtain ⟨k1, v1⟩ := q
      by_cases h1 : k1 = k
      · rw [set_state, if_pos h1] at h
        rcases List.mem_cons.mp h with h | h
        · exact ⟨(k1, v1), by simp, by simp [h]⟩
        · exact ⟨p, by simp [h], rfl⟩
      · rw [set_state, if_neg h1] at h
        rcases List.mem_cons.mp h with h | h
        · exact ⟨(k1, v1), by simp, by simp [h]⟩
        · rcases ih h with ⟨q2, hq2, hq3⟩
          exact ⟨q2, by simp [hq2], hq3⟩

theorem length_alistInsert_of_lookup_none {α : Type} (l : List (Nat × α)) (k : Nat)
    (v : α) (h : alistLookup l k = none) :
    (alistInsert l k v).length = l.length + 1 := by
  induction l with
  | nil => simp [alistInsert]
  | cons q rest ih =>
      obtain ⟨k1, v1⟩ := q
      simp [alistLookup] at h
      by_cases h1 : k1 = k
      · simp [h1] at h
      · simp [alistInsert, h1]
        exact ih (by simpa [h1] using h)

/-! ### The held/disputed-deposit accounting -/

/-- The contribution of one history record to the sum of currently
disputed deposit amounts. -/
def contribution (r : TransactionHistoryRecord) : ℚ :=
  match r.state, r.transaction with
  | .Disputed, .Deposit _ _ amount => amount
  | _, _ => 0

/-- Sum of amounts of the deposit transactions whose history state is
currently `Disputed`. -/
def disputed_deposit_sum (l : List (Nat × TransactionHistoryRecord)) : ℚ :=
  (l.map fun p => contribution p.2).sum

theorem contribution_nonneg (r : TransactionHistoryRecord)
    (h : 0 ≤ r.transaction.amount) : 0 ≤ contribution r := by
  obtain ⟨tx, st⟩ := r
  cases st <;> cases tx <;> simp_all [contribution, Transaction.amount]

theorem disputed_deposit_sum_nil : disputed_deposit_sum [] = 0 := rfl

theorem disputed_deposit_sum_cons (p : Nat × TransactionHistoryRecord)
    (l : List (Nat × TransactionHistoryRecord)) :
    disputed_deposit_sum (p :: l) = contribution p.2 + disputed_deposit_sum l := by
  simp [disputed_deposit_sum]

theorem disputed_deposit_sum_nonneg (l : List (Nat × TransactionHistoryRecord))
    (h : ∀ p ∈ l, 0 ≤ p.2.transaction.amount) : 0 ≤ disputed_deposit_sum l := by
  induction l with
  | nil => simp [disputed_deposit_sum]
  | cons p rest ih =>
      rw [disputed_deposit_sum_cons]
      have h1 : 0 ≤ contribution p.2 := contribution_nonneg _ (h p (by simp))
      have h2 : 0 ≤ disputed_deposit_sum rest := ih (fun q hq => h q (by simp [hq]))
      linarith

theorem disputed_deposit_sum_insert_none (l : List (Nat × TransactionHistoryRecord))
    (k : Nat) (v : TransactionHistoryRecord) (h : alistLookup l k = none) :
    disputed_deposit_sum (alistInsert l k v) = disputed_deposit_sum l + contribution v := by
  induction l with
  | nil => simp [alistInsert, disputed_deposit_sum]
  | cons q rest ih =>
      obtain ⟨k1, v1⟩ := q
      simp [alistLookup] at h
      by_cases h1 : k1 = k
      · simp [h1] at h
      · rw [alistInsert]
        simp only [h1, if_false]
        rw [disputed_deposit_sum_cons, disputed_deposit_sum_cons,
          ih (by simpa [h1] using h)]
        ring

theorem disputed_deposit_sum_insert_some (l : List (Nat × TransactionHistoryRecord))
    (k : Nat) (v r : TransactionHistoryRecord) (h : alistLookup l k = some r) :
    disputed_deposit_sum (alistInsert l k v) =
      disputed_deposit_sum l - contribution r + contribution v := by
  induction l with
  | nil => simp [alistLookup] at h
  | cons q rest ih =>
      obtain ⟨k1, v1⟩ := q
      by_cases h1 : k1 = k
      · rw [alistLookup] at h
        simp [h1] at h
        rw [alistInsert]
        simp only [h1, if_true]
        rw [disputed_deposit_sum_cons, disputed_deposit_sum_cons, h]
        ring
      · rw [alistLookup] at h
        simp [h1] at h
        rw [alistInsert]
        simp only [h1, if_false]
        rw [disputed_deposit_sum_cons, disputed_deposit_sum_cons, ih h]
        ring

theorem disputed_deposit_sum_set_state (l : List (Nat × TransactionHistoryRecord))
    (k : Nat) (s : TransactionState) (r : TransactionHistoryRecord)
    (h : alistLookup l k = some r) :
    disputed_deposit_sum (set_state l k s) =
      disputed_deposit_sum l - contribution r + contribution { r with state := s } := by
  induction l with
  | nil => simp [alistLookup] at h
  | cons q rest ih =>
      obtain ⟨k1, v1⟩ := q
      by_cases h1 : k1 = k
      · rw [alistLookup] at h
        simp [h1] at h
        rw [set_state]
        simp only [h1, if_true]
        rw [disputed_deposit_sum_cons, disputed_deposit_sum_cons, h]
        ring
      · rw [alistLookup] at h
        simp [h1] at h
        rw [set_state]
        simp only [h1, if_false]
        rw [disputed_deposit_sum_cons, disputed_deposit_sum_cons, ih h]
        ring

/-! ### Basic facts about event application -/

theorem applyEvents_nil (a : ClientAccount) : a.applyEvents [] = a := rfl

theorem applyEvents_cons (a : ClientAccount) (ev : Event) (rest : List Event) :
    a.applyEvents (ev :: rest) = (a.applyEvent ev).applyEvents rest := rfl

theorem applyEvent_locked (a : ClientAccount) (ev : Event) (h : a.locked = true) :
    (a.applyEvent ev).available = a.available ∧ (a.applyEvent ev).held = a.held ∧
      (a.applyEvent ev).locked = true := by
  cases ev with
  | transaction t =>
      by_cases hc : t.get_client_id = a.id <;>
        cases t <;>
          simp_all [ClientAccount.applyEvent, ClientAccount.add_transaction,
            Transaction.get_client_id, Transaction.get_transaction_id]
  | disputeAction d =>
      by_cases hc : d.get_client_id = a.id <;>
        cases d <;>
          simp_all [ClientAccount.applyEvent, ClientAccount.add_dispute_action,
            DisputeAction.get_client_id, DisputeAction.get_referenced_transaction_id]

/-- C1: once an account's `locked` flag is true, no subsequently applied event
(deposit, withdrawal, dispute, resolve, or chargeback) changes its available
balance, held balance, or locked flag; in particular `locked` never reverts to
`false`. -/
theorem locked_account_frozen (a : ClientAccount) (events : List Event)
    (h : a.locked = true) :
    (a.applyEvents events).available = a.available ∧
      (a.applyEvents events).held = a.held ∧
      (a.applyEvents events).locked = true := by
  induction events generalizing a with
  | nil => exact ⟨rfl, rfl, h⟩
  | cons ev rest ih =>
      rcases applyEvent_locked a ev h with ⟨h1, h2, h3⟩
      rcases ih (a.applyEvent ev) h3 with ⟨g1, g2, g3⟩
      rw [applyEvents_cons]
      exact ⟨g1.trans h1, g2.trans h2, g3⟩

/-- Witness for C1 at a concrete locked account and a deposit event. -/
theorem locked_account_frozen_witness :
    (({ ClientAccount.new 1 with locked := true } :
        ClientAccount).applyEvents [Event.transaction (Transaction.Deposit 1 1 2)]).available = 0 ∧
      (({ ClientAccount.new 1 with locked := true } :
        ClientAccount).applyEvents [Event.transaction (Transaction.Deposit 1 1 2)]).held = 0 ∧
      (({ ClientAccount.new 1 with locked := true } :
        ClientAccount).applyEvents [Event.transaction (Transaction.Deposit 1 1 2)]).locked = true := by
  have h := locked_account_frozen { ClientAccount.new 1 with locked := true }
    [Event.transaction (Transaction.Deposit 1 1 2)] rfl
  simpa [ClientAccount.new] using h

/-- C7: a `Chargeback` applied to a transaction currently `Disputed` on an
unlocked account removes the amount from `held` for a deposit (leaving
`available` unchanged), changes no balance for a withdrawal, marks the
transaction `Chargebacked`, and locks the account. -/
theorem chargeback_of_disputed (a : ClientAccount) (c rid : Nat)
    (r : TransactionHistoryRecord) (hc : c = a.id) (hl : a.locked = false)
    (hr : alistLookup a.transaction_history rid = some r)
    (hs : r.state = TransactionState.Disputed) :
    ∃ a2, a.add_dispute_action (DisputeAction.Chargeback c rid) = Except.ok a2 ∧
      a2.locked = true ∧
      alistLookup a2.transaction_history rid =
        some { r with state := TransactionState.Chargebacked } ∧
      (∀ c2 id2 amt, r.transaction = Transaction.Deposit c2 id2 amt →
        a2.held = a.held - amt ∧ a2.available = a.available) ∧
      (∀ c2 id2 amt, r.transaction = Transaction.Withdrawal c2 id2 amt →
        a2.held = a.held ∧ a2.available = a.available) := by
  obtain ⟨tx, st⟩ := r
  simp only at hs
  subst hs
  subst hc
  cases tx <;>
    simp_all [ClientAccount.add_dispute_action, DisputeAction.get_client_id,
      DisputeAction.get_referenced_transaction_id, alistLookup_set_state]

/-- Witness for C7 at a concrete account holding a disputed deposit. -/
theorem chargeback_of_disputed_witness :
    ∃ a2,
      (ClientAccount.mk 1 [(1, TransactionHistoryRecord.mk (Transaction.Deposit 1 1 2)
          TransactionState.Disputed)] [] 0 2 false).add_dispute_action
        (DisputeAction.Chargeback 1 1) = Except.ok a2 ∧
      a2.locked = true ∧
      alistLookup a2.transaction_history 1 =
        some { TransactionHistoryRecord.mk (Transaction.Deposit 1 1 2)
          TransactionState.Disputed with state := TransactionState.Chargebacked } ∧
      (∀ c2 id2 amt,
        (TransactionHistoryRecord.mk (Transaction.Deposit 1 1 2)
          TransactionState.Disputed).transaction = Transaction.Deposit c2 id2 amt →
        a2.held = (2 : ℚ) - amt ∧ a2.available = 0) ∧
      (∀ c2 id2 amt,
        (TransactionHistoryRecord.mk (Transaction.Deposit 1 1 2)
          TransactionState.Disputed).transaction = Transaction.Withdrawal c2 id2 amt →
        a2.held = 2 ∧ a2.available = 0) :=
  chargeback_of_disputed
    (ClientAccount.mk 1 [(1, TransactionHistoryRecord.mk (Transaction.Deposit 1 1 2)
      TransactionState.Disputed)] [] 0 2 false) 1 1
    (TransactionHistoryRecord.mk (Transaction.Deposit 1 1 2) TransactionState.Disputed)
    rfl rfl rfl rfl

/-- A concrete account locked by a chargeback: deposit tx 5, deposit tx 1,
dispute tx 1, chargeback tx 1.  Transaction 5 remains `Accepted`, the account
is locked, and `dispute_history` has two entries. -/
def lockedSample : ClientAccount :=
  (ClientAccount.new 1).applyEvents
    [Event.transaction (Transaction.Deposit 1 5 3),
     Event.transaction (Transaction.Deposit 1 1 1),
     Event.disputeAction (DisputeAction.Dispute 1 1),
     Event.disputeAction (DisputeAction.Chargeback 1 1)]

/-- `lockedSample` evaluated: this pins down the concrete state used by the
counterexamples below. -/
theorem lockedSample_eval :
    lockedSample =
      ClientAccount.mk 1
        [(5, TransactionHistoryRecord.mk (Transaction.Deposit 1 5 3)
            TransactionState.Accepted),
         (1, TransactionHistoryRecord.mk (Transaction.Deposit 1 1 1)
            TransactionState.Chargebacked)]
        [DisputeAction.Dispute 1 1, DisputeAction.Chargeback 1 1]
        3 0 true := by
  simp [lockedSample, ClientAccount.applyEvents, ClientAccount.applyEvent,
    ClientAccount.add_transaction, ClientAccount.add_dispute_action,
    ClientAccount.new, alistLookup, alistInsert, set_state,
    Transaction.get_client_id, Transaction.get_transaction_id,
    DisputeAction.get_client_id, DisputeAction.get_referenced_transaction_id,
    TransactionHistoryRecord.new, ClientAccount.withdrawal_amount_allowed]

/-- C5 counterexample: on the locked account `lockedSample`, a `Resolve` whose
referenced transaction id 99 has no history entry is NOT a complete no-op: it
is appended to `dispute_history`. -/
theorem unknown_reference_counterexample :
    alistLookup lockedSample.transaction_history 99 = none ∧
      (lockedSample.applyEvent
          (Event.disputeAction (DisputeAction.Resolve 1 99))).dispute_history =
        lockedSample.dispute_history ++ [DisputeAction.Resolve 1 99] ∧
      lockedSample.dispute_history ≠
        lockedSample.dispute_history ++ [DisputeAction.Resolve 1 99] := by
  rw [lockedSample_eval]
  refine ⟨rfl, ?_, by simp⟩
  simp [ClientAccount.applyEvent, ClientAccount.add_dispute_action,
    DisputeAction.get_client_id]

/-- C5 (amended): on an unlocked account, a dispute action addressed to this
client whose referenced transaction id has no history entry leaves the account
entirely unchanged (balances, lock state, transaction history, dispute
history) and raises no error.  (On a locked account the action is still
appended to `dispute_history`.) -/
theorem unknown_reference_noop (a : ClientAccount) (d : DisputeAction)
    (hc : d.get_client_id = a.id) (hl : a.locked = false)
    (hn : alistLookup a.transaction_history d.get_referenced_transaction_id = none) :
    a.add_dispute_action d = Except.ok a := by
  cases d <;>
    simp_all [ClientAccount.add_dispute_action, DisputeAction.get_client_id,
      DisputeAction.get_referenced_transaction_id]

/-- Witness for the amended C5 on a fresh account and an unknown reference. -/
theorem unknown_reference_noop_witness :
    (ClientAccount.new 1).add_dispute_action (DisputeAction.Dispute 1 7) =
      Except.ok (ClientAccount.new 1) :=
  unknown_reference_noop (ClientAccount.new 1) (DisputeAction.Dispute 1 7) rfl rfl rfl

/-- C6: a withdrawal on an unlocked account (fresh transaction id): with
sufficient funds, `available` decreases by exactly the amount and the
transaction is recorded `Accepted`; otherwise `available` and `held` are
unchanged and it is recorded `Rejected`.  No partial withdrawal exists, and in
both cases exactly one history entry is created. -/
theorem withdrawal_all_or_nothing (a : ClientAccount) (c id2 : Nat) (amt : ℚ)
    (hc : c = a.id) (hl : a.locked = false)
    (hfresh : alistLookup a.transaction_history id2 = none) :
    ∃ a2, a.add_transaction (Transaction.Withdrawal c id2 amt) = Except.ok a2 ∧
      (amt ≤ a.available →
        a2.available = a.available - amt ∧
        alistLookup a2.transaction_history id2 =
          some (TransactionHistoryRecord.mk (Transaction.Withdrawal c id2 amt)
            TransactionState.Accepted)) ∧
      (¬ amt ≤ a.available →
        a2.available = a.available ∧
        alistLookup a2.transaction_history id2 =
          some (TransactionHistoryRecord.mk (Transaction.Withdrawal c id2 amt)
            TransactionState.Rejected)) ∧
      a2.held = a.held ∧
      a2.transaction_history.length = a.transaction_history.length + 1 := by
  subst hc
  by_cases hw : amt ≤ a.available
  · simp [ClientAccount.add_transaction, Transaction.get_client_id,
      Transaction.get_transaction_id, ClientAccount.withdrawal_amount_allowed,
      TransactionHistoryRecord.new, alistLookup_insert, hl, hfresh, hw,
      length_alistInsert_of_lookup_none]
  · simp [ClientAccount.add_transaction, Transaction.get_client_id,
      Transaction.get_transaction_id, ClientAccount.withdrawal_amount_allowed,
      TransactionHistoryRecord.new, alistLookup_insert, hl, hfresh, hw,
      length_alistInsert_of_lookup_none]

/-- Witness for C6: withdrawing 1 from an account with 2 available. -/
theorem withdrawal_all_or_nothing_witness :
    ∃ a2, (ClientAccount.mk 1 [] [] 2 0 false).add_transaction
        (Transaction.Withdrawal 1 1 1) = Except.ok a2 ∧
      ((1 : ℚ) ≤ 2 →
        a2.available = (2 : ℚ) - 1 ∧
        alistLookup a2.transaction_history 1 =
          some (TransactionHistoryRecord.mk (Transaction.Withdrawal 1 1 1)
            TransactionState.Accepted)) ∧
      (¬ (1 : ℚ) ≤ 2 →
        a2.available = 2 ∧
        alistLookup a2.transaction_history 1 =
          some (TransactionHistoryRecord.mk (Transaction.Withdrawal 1 1 1)
            TransactionState.Rejected)) ∧
      a2.held = 0 ∧
      a2.transaction_history.length = 0 + 1 :=
  withdrawal_all_or_nothing (ClientAccount.mk 1 [] [] 2 0 false) 1 1 1 rfl rfl rfl

/-- C8 counterexample: on the locked account `lockedSample`, transaction 5 is
in state `Accepted`, yet applying the same Dispute action twice does NOT yield
the same state as applying it once (each application appends to
`dispute_history`). -/
theorem dispute_idempotent_counterexample :
    lockedSample.locked = true ∧
      alistLookup lockedSample.transaction_history 5 =
        some (TransactionHistoryRecord.mk (Transaction.Deposit 1 5 3)
          TransactionState.Accepted) ∧
      ((lockedSample.applyEvent (Event.disputeAction (DisputeAction.Dispute 1 5))).applyEvent
          (Event.disputeAction (DisputeAction.Dispute 1 5))) ≠
        lockedSample.applyEvent (Event.disputeAction (DisputeAction.Dispute 1 5)) := by
  rw [lockedSample_eval]
  refine ⟨rfl, rfl, ?_⟩
  simp [ClientAccount.applyEvent, ClientAccount.add_dispute_action,
    DisputeAction.get_client_id]

/-- C8 (amended): on an UNLOCKED account, applying the same Dispute action
twice in a row to a transaction in state `Accepted` yields exactly the same
account state as applying it once: the second application is a no-op. -/
theorem dispute_idempotent (a : ClientAccount) (c rid : Nat)
    (r : TransactionHistoryRecord) (hc : c = a.id) (hl : a.locked = false)
    (hr : alistLookup a.transaction_history rid = some r)
    (hs : r.state = TransactionState.Accepted) :
    ∃ a2, a.add_dispute_action (DisputeAction.Dispute c rid) = Except.ok a2 ∧
      a2.add_dispute_action (DisputeAction.Dispute c rid) = Except.ok a2 := by
  obtain ⟨tx, st⟩ := r
  simp only at hs
  subst hs
  subst hc
  cases tx <;>
    simp_all [ClientAccount.add_dispute_action, DisputeAction.get_client_id,
      DisputeAction.get_referenced_transaction_id, alistLookup_set_state]

/-- Witness for the amended C8 on a concrete account with an accepted deposit. -/
theorem dispute_idempotent_witness :
    ∃ a2, (ClientAccount.mk 1 [(1, TransactionHistoryRecord.mk
          (Transaction.Deposit 1 1 2) TransactionState.Accepted)] [] 2 0
          false).add_dispute_action (DisputeAction.Dispute 1 1) = Except.ok a2 ∧
      a2.add_dispute_action (DisputeAction.Dispute 1 1) = Except.ok a2 :=
  dispute_idempotent
    (ClientAccount.mk 1 [(1, TransactionHistoryRecord.mk
      (Transaction.Deposit 1 1 2) TransactionState.Accepted)] [] 2 0 false) 1 1
    (TransactionHistoryRecord.mk (Transaction.Deposit 1 1 2) TransactionState.Accepted)
    rfl rfl rfl rfl

/-- C3 counterexample: a second Deposit bearing an already-seen transaction id
replaces the stored record (the SECOND occurrence becomes authoritative) and
re-applies its balance change, contradicting the claim that the first record
is never replaced and a second occurrence has no balance effect. -/
theorem duplicate_id_counterexample :
    (((ClientAccount.new 1).applyEvent
        (Event.transaction (Transaction.Deposit 1 1 2))).applyEvent
        (Event.transaction (Transaction.Deposit 1 1 3))).available = 5 ∧
      ((ClientAccount.new 1).applyEvent
        (Event.transaction (Transaction.Deposit 1 1 2))).available = 2 ∧
      alistLookup (((ClientAccount.new 1).applyEvent
        (Event.transaction (Transaction.Deposit 1 1 2))).applyEvent
        (Event.transaction (Transaction.Deposit 1 1 3))).transaction_history 1 =
        some (TransactionHistoryRecord.mk (Transaction.Deposit 1 1 3)
          TransactionState.Accepted) ∧
      alistLookup ((ClientAccount.new 1).applyEvent
        (Event.transaction (Transaction.Deposit 1 1 2))).transaction_history 1 =
        some (TransactionHistoryRecord.mk (Transaction.Deposit 1 1 2)
          TransactionState.Accepted) := by
  simp [ClientAccount.applyEvent, ClientAccount.add_transaction,
    ClientAccount.new, alistLookup, alistInsert,
    Transaction.get_client_id, Transaction.get_transaction_id,
    TransactionHistoryRecord.new]
  norm_num

/-- C3 (amended): the history map holds at most one record per transaction id
(no id is duplicated), but a transaction whose id is already present REPLACES
the stored record — the latest occurrence is authoritative — and its balance
effect is applied again (a deposit on an unlocked account always increases
`available` by its amount, already-seen id or not). -/
theorem history_insert_replaces (a : ClientAccount) (t : Transaction)
    (hc : t.get_client_id = a.id) (hk : (alistKeys a.transaction_history).Nodup) :
    ∃ a2, a.add_transaction t = Except.ok a2 ∧
      (∃ s, alistLookup a2.transaction_history t.get_transaction_id =
        some (TransactionHistoryRecord.mk t s)) ∧
      (alistKeys a2.transaction_history).Nodup ∧
      (a.locked = false → ∀ c2 id2 amt, t = Transaction.Deposit c2 id2 amt →
        a2.available = a.available + amt) := by
  by_cases hlk : a.locked = true
  · cases t <;>
      simp_all [ClientAccount.add_transaction, Transaction.get_client_id,
        Transaction.get_transaction_id, TransactionHistoryRecord.new,
        alistLookup_insert, alistKeys_insert_nodup]
  · cases t with
    | Deposit c id2 amt =>
        simp_all [ClientAccount.add_transaction, Transaction.get_client_id,
          Transaction.get_transaction_id, TransactionHistoryRecord.new,
          alistLookup_insert, alistKeys_insert_nodup]
    | Withdrawal c id2 amt =>
        by_cases hw : amt ≤ a.available
        · simp_all [ClientAccount.add_transaction, Transaction.get_client_id,
            Transaction.get_transaction_id, TransactionHistoryRecord.new,
            ClientAccount.withdrawal_amount_allowed, alistLookup_insert,
            alistKeys_insert_nodup]
        · simp only [Bool.not_eq_true] at hlk
          simp only [Transaction.get_client_id] at hc
          simp [ClientAccount.add_transaction, Transaction.get_client_id,
            Transaction.get_transaction_id, TransactionHistoryRecord.new,
            ClientAccount.withdrawal_amount_allowed, alistLookup_insert,
            alistKeys_insert_nodup, hlk, hc, hw, hk]

/-- Witness for the amended C3: re-submitting id 1 as a deposit of 3 on an
account that already recorded id 1. -/
theorem history_insert_replaces_witness :
    ∃ a2, (ClientAccount.mk 1 [(1, TransactionHistoryRecord.mk
          (Transaction.Deposit 1 1 2) TransactionState.Accepted)] [] 2 0
          false).add_transaction (Transaction.Deposit 1 1 3) = Except.ok a2 ∧
      (∃ s, alistLookup a2.transaction_history 1 =
        some (TransactionHistoryRecord.mk (Transaction.Deposit 1 1 3) s)) ∧
      (alistKeys a2.transaction_history).Nodup ∧
      (false = false → ∀ c2 id2 amt, Transaction.Deposit 1 1 3 =
          Transaction.Deposit c2 id2 amt → a2.available = 2 + amt) :=
  history_insert_replaces
    (ClientAccount.mk 1 [(1, TransactionHistoryRecord.mk
      (Transaction.Deposit 1 1 2) TransactionState.Accepted)] [] 2 0 false)
    (Transaction.Deposit 1 1 3) rfl (by simp [alistKeys])

/-- C4 counterexample: on the locked account `lockedSample`, a Dispute whose
referenced id 99 has no history entry causes no transaction-state transition
(the transaction history is unchanged), yet it IS appended to
`dispute_history`. -/
theorem dispute_history_iff_counterexample :
    lockedSample.locked = true ∧
      (lockedSample.applyEvent
          (Event.disputeAction (DisputeAction.Dispute 1 99))).transaction_history =
        lockedSample.transaction_history ∧
      (lockedSample.applyEvent
          (Event.disputeAction (DisputeAction.Dispute 1 99))).dispute_history =
        lockedSample.dispute_history ++ [DisputeAction.Dispute 1 99] ∧
      alistLookup lockedSample.transaction_history 99 = none := by
  rw [lockedSample_eval]
  refine ⟨rfl, ?_, ?_, rfl⟩ <;>
    simp [ClientAccount.applyEvent, ClientAccount.add_dispute_action,
      DisputeAction.get_client_id]

set_option maxHeartbeats 1600000 in
/-- C4 (amended): on an UNLOCKED account, an applied dispute action is appended
to `dispute_history` if and only if it changes the referenced transaction's
recorded state (a non-no-op branch of the (state, action) table); no-op
actions append nothing.  (On a locked account every dispute action is appended
unconditionally.) -/
theorem dispute_history_iff_transition (a : ClientAccount) (d : DisputeAction)
    (a2 : ClientAccount) (hl : a.locked = false)
    (h : a.add_dispute_action d = Except.ok a2) :
    (a2.dispute_history = a.dispute_history ++ [d] ∨
      a2.dispute_history = a.dispute_history) ∧
    (a2.dispute_history = a.dispute_history ++ [d] ↔
      ∃ r r2, alistLookup a.transaction_history
          d.get_referenced_transaction_id = some r ∧
        alistLookup a2.transaction_history
          d.get_referenced_transaction_id = some r2 ∧
        r.state ≠ r2.state) := by
  by_cases hc : d.get_client_id = a.id
  case neg =>
    cases d <;>
      simp_all [ClientAccount.add_dispute_action, DisputeAction.get_client_id]
  case pos =>
    cases hh : alistLookup a.transaction_history d.get_referenced_transaction_id with
    | none =>
        cases d <;>
          simp_all [ClientAccount.add_dispute_action, DisputeAction.get_client_id,
            DisputeAction.get_referenced_transaction_id]
    | some r =>
        obtain ⟨tx, st⟩ := r
        cases st <;> cases d <;> cases tx <;>
          simp_all [ClientAccount.add_dispute_action, DisputeAction.get_client_id,
            DisputeAction.get_referenced_transaction_id, alistLookup_set_state] <;>
          (subst h; simp_all [alistLookup_set_state])

/-- Witness for the amended C4: a no-op Dispute (unknown reference) on a fresh
account appends nothing, and the iff holds with both sides false. -/
theorem dispute_history_iff_transition_witness :
    ((ClientAccount.new 1).dispute_history =
        (ClientAccount.new 1).dispute_history ++ [DisputeAction.Dispute 1 7] ∨
      (ClientAccount.new 1).dispute_history = (ClientAccount.new 1).dispute_history) ∧
    ((ClientAccount.new 1).dispute_history =
        (ClientAccount.new 1).dispute_history ++ [DisputeAction.Dispute 1 7] ↔
      ∃ r r2, alistLookup (ClientAccount.new 1).transaction_history 7 = some r ∧
        alistLookup (ClientAccount.new 1).transaction_history 7 = some r2 ∧
        r.state ≠ r2.state) :=
  dispute_history_iff_transition (ClientAccount.new 1) (DisputeAction.Dispute 1 7)
    (ClientAccount.new 1) rfl rfl

/-! ### Invariants relating `held` to the disputed deposits -/

/-- The event's amount is non-negative (dispute actions carry no amount). -/
def Event.nonneg_amount : Event → Prop
  | .transaction t => 0 ≤ t.amount
  | .disputeAction _ => True

/-- The transaction id carried by an event, when it is a transaction. -/
def Event.transaction_id : Event → Option Nat
  | .transaction t => some t.get_transaction_id
  | .disputeAction _ => none

/-- The transaction ids of the transaction events in a stream. -/
def eventTxIds (events : List Event) : List Nat :=
  events.filterMap Event.transaction_id

theorem alistLookup_mem {α : Type} (l : List (Nat × α)) (k : Nat) (v : α)
    (h : alistLookup l k = some v) : (k, v) ∈ l := by
  induction l with
  | nil => simp [alistLookup] at h
  | cons p rest ih =>
      obtain ⟨k1, v1⟩ := p
      by_cases h1 : k1 = k
      · rw [alistLookup, if_pos h1] at h
        subst h1
        simp at h
        simp [h]
      · rw [alistLookup, if_neg h1] at h
        exact List.mem_cons_of_mem _ (ih h)

/-- All amounts recorded in a transaction history are non-negative. -/
def amounts_nonneg (l : List (Nat × TransactionHistoryRecord)) : Prop :=
  ∀ p ∈ l, 0 ≤ p.2.transaction.amount

theorem amounts_nonneg_set_state (l : List (Nat × TransactionHistoryRecord)) (k : Nat)
    (s : TransactionState) (h1 : amounts_nonneg l) :
    amounts_nonneg (set_state l k s) := by
  intro p hp
  rcases mem_set_state l k s p hp with ⟨q, hq, he⟩
  rw [he]
  exact h1 q hq

theorem insert_record_inv (l : List (Nat × TransactionHistoryRecord)) (k : Nat)
    (v : TransactionHistoryRecord) (held : ℚ)
    (h1 : amounts_nonneg l)
    (h2 : disputed_deposit_sum l ≤ held)
    (hv : 0 ≤ v.transaction.amount)
    (hcv : contribution v = 0) :
    amounts_nonneg (alistInsert l k v) ∧
      disputed_deposit_sum (alistInsert l k v) ≤ held := by
  constructor
  · intro p hp
    rcases mem_alistInsert l k v p hp with h | h
    · rw [h]
      exact hv
    · exact h1 p h
  · cases hlook : alistLookup l k with
    | none =>
        rw [disputed_deposit_sum_insert_none l k v hlook, hcv]
        linarith
    | some r =>
        have hr : (k, r) ∈ l := alistLookup_mem l k r hlook
        have hc : 0 ≤ contribution r := contribution_nonneg r (h1 (k, r) hr)
        rw [disputed_deposit_sum_insert_some l k v r hlook, hcv]
        linarith

theorem heldInv_step (a : ClientAccount) (ev : Event)
    (h1 : amounts_nonneg a.transaction_history)
    (h2 : disputed_deposit_sum a.transaction_history ≤ a.held)
    (hev : ev.nonneg_amount) :
    amounts_nonneg (a.applyEvent ev).transaction_history ∧
      disputed_deposit_sum (a.applyEvent ev).transaction_history ≤
        (a.applyEvent ev).held := by
  cases ev with
  | transaction t =>
      have hamt : 0 ≤ t.amount := hev
      by_cases hc : t.get_client_id = a.id
      case neg =>
        have he : a.applyEvent (Event.transaction t) = a := by
          simp [ClientAccount.applyEvent, ClientAccount.add_transaction, hc]
        rw [he]
        exact ⟨h1, h2⟩
      case pos =>
        by_cases hlk : a.locked = true
        · have he : a.applyEvent (Event.transaction t) =
              { a with transaction_history := (alistInsert a.transaction_history
                  t.get_transaction_id (TransactionHistoryRecord.new t false)) } := by
            simp [ClientAccount.applyEvent, ClientAccount.add_transaction, hc, hlk]
          rw [he]
          exact insert_record_inv _ _ _ _ h1 h2
            (by simpa [TransactionHistoryRecord.new] using hamt)
            (by cases t <;> simp [contribution, TransactionHistoryRecord.new])
        · cases t with
          | Deposit c2 id2 amt =>
              have he : a.applyEvent (Event.transaction (Transaction.Deposit c2 id2 amt)) =
                  { a with
                      available := a.available + amt,
                      transaction_history := (alistInsert a.transaction_history id2
                        (TransactionHistoryRecord.new
                          (Transaction.Deposit c2 id2 amt) true)) } := by
                simp_all [ClientAccount.applyEvent, ClientAccount.add_transaction,
                  Transaction.get_client_id, Transaction.get_transaction_id]
              rw [he]
              exact insert_record_inv _ _ _ _ h1 h2
                (by simpa [TransactionHistoryRecord.new, Transaction.amount] using hamt)
                (by simp [contribution, TransactionHistoryRecord.new])
          | Withdrawal c2 id2 amt =>
              by_cases hw : a.withdrawal_amount_allowed amt = true
              · have he : a.applyEvent (Event.transaction (Transaction.Withdrawal c2 id2 amt)) =
                    { a with
                        available := a.available - amt,
                        transaction_history := (alistInsert a.transaction_history id2
                          (TransactionHistoryRecord.new
                            (Transaction.Withdrawal c2 id2 amt) true)) } := by
                  simp_all [ClientAccount.applyEvent, ClientAccount.add_transaction,
                    Transaction.get_client_id, Transaction.get_transaction_id]
                rw [he]
                exact insert_record_inv _ _ _ _ h1 h2
                  (by simpa [TransactionHistoryRecord.new, Transaction.amount] using hamt)
                  (by simp [contribution, TransactionHistoryRecord.new])
              · have he : a.applyEvent (Event.transaction (Transaction.Withdrawal c2 id2 amt)) =
                    { a with transaction_history := (alistInsert a.transaction_history id2
                        (TransactionHistoryRecord.new
                          (Transaction.Withdrawal c2 id2 amt) false)) } := by
                  simp_all [ClientAccount.applyEvent, ClientAccount.add_transaction,
                    Transaction.get_client_id, Transaction.get_transaction_id]
                rw [he]
                exact insert_record_inv _ _ _ _ h1 h2
                  (by simpa [TransactionHistoryRecord.new, Transaction.amount] using hamt)
                  (by simp [contribution, TransactionHistoryRecord.new])
  | disputeAction d =>
      by_cases hc : d.get_client_id = a.id
      case neg =>
        have he : a.applyEvent (Event.disputeAction d) = a := by
          simp [ClientAccount.applyEvent, ClientAccount.add_dispute_action, hc]
        rw [he]
        exact ⟨h1, h2⟩
      case pos =>
        by_cases hlk : a.locked = true
        · have he : a.applyEvent (Event.disputeAction d) =
              { a with dispute_history := a.dispute_history ++ [d] } := by
            simp [ClientAccount.applyEvent, ClientAccount.add_dispute_action, hc, hlk]
          rw [he]
          exact ⟨h1, h2⟩
        · cases hh : alistLookup a.transaction_history d.get_referenced_transaction_id with
          | none =>
              have he : a.applyEvent (Event.disputeAction d) = a := by
                cases d <;>
                  simp_all [ClientAccount.applyEvent, ClientAccount.add_dispute_action,
                    DisputeAction.get_client_id, DisputeAction.get_referenced_transaction_id]
              rw [he]
              exact ⟨h1, h2⟩
          | some r =>
              obtain ⟨tx, st⟩ := r
              cases st <;> cases d <;> cases tx <;>
                simp_all [ClientAccount.applyEvent, ClientAccount.add_dispute_action,
                  DisputeAction.get_client_id, DisputeAction.get_referenced_transaction_id] <;>
                (refine ⟨amounts_nonneg_set_state _ _ _ h1, ?_⟩
                 rw [disputed_deposit_sum_set_state _ _ _ _ hh]
                 simp only [contribution]
                 linarith)

theorem heldInv_run (a : ClientAccount) (events : List Event)
    (h1 : amounts_nonneg a.transaction_history)
    (h2 : disputed_deposit_sum a.transaction_history ≤ a.held)
    (hev : ∀ ev ∈ events, ev.nonneg_amount) :
    amounts_nonneg (a.applyEvents events).transaction_history ∧
      disputed_deposit_sum (a.applyEvents events).transaction_history ≤
        (a.applyEvents events).held := by
  induction events generalizing a with
  | nil => exact ⟨h1, h2⟩
  | cons ev rest ih =>
      rcases heldInv_step a ev h1 h2 (hev ev (by simp)) with ⟨g1, g2⟩
      rw [applyEvents_cons]
      exact ih (a.applyEvent ev) g1 g2 (fun e he => hev e (by simp [he]))

/-- C2 counterexample: deposit 2, withdraw 2, then dispute the deposit.  All
amounts are non-negative and the dispute is a genuine transition
(`Accepted → Disputed`), yet afterwards `available = -2 < 0`. -/
theorem dispute_negative_available_counterexample :
    alistLookup ((ClientAccount.new 1).applyEvents
        [Event.transaction (Transaction.Deposit 1 1 2),
         Event.transaction (Transaction.Withdrawal 1 2 2)]).transaction_history 1 =
      some (TransactionHistoryRecord.mk (Transaction.Deposit 1 1 2)
        TransactionState.Accepted) ∧
      alistLookup ((ClientAccount.new 1).applyEvents
        [Event.transaction (Transaction.Deposit 1 1 2),
         Event.transaction (Transaction.Withdrawal 1 2 2),
         Event.disputeAction (DisputeAction.Dispute 1 1)]).transaction_history 1 =
      some (TransactionHistoryRecord.mk (Transaction.Deposit 1 1 2)
        TransactionState.Disputed) ∧
      ((ClientAccount.new 1).applyEvents
        [Event.transaction (Transaction.Deposit 1 1 2),
         Event.transaction (Transaction.Withdrawal 1 2 2),
         Event.disputeAction (DisputeAction.Dispute 1 1)]).available = -2 ∧
      ¬ (0 ≤ ((ClientAccount.new 1).applyEvents
        [Event.transaction (Transaction.Deposit 1 1 2),
         Event.transaction (Transaction.Withdrawal 1 2 2),
         Event.disputeAction (DisputeAction.Dispute 1 1)]).available) := by
  refine ⟨?_, ?_, ?_, ?_⟩ <;>
    simp [ClientAccount.applyEvents, ClientAccount.applyEvent,
      ClientAccount.add_transaction, ClientAccount.add_dispute_action,
      ClientAccount.new, alistLookup, alistInsert, set_state,
      Transaction.get_client_id, Transaction.get_transaction_id,
      DisputeAction.get_client_id, DisputeAction.get_referenced_transaction_id,
      TransactionHistoryRecord.new, ClientAccount.withdrawal_amount_allowed]

/-- C2 (amended): for every event sequence with non-negative amounts, `held`
is never negative — in particular after every dispute transition.  (The
original claim also asserted `available` is never negative, which the code
violates: disputing a deposit whose funds were already withdrawn drives
`available` below zero.) -/
theorem held_nonneg (cid : Nat) (events : List Event)
    (hev : ∀ ev ∈ events, ev.nonneg_amount) :
    0 ≤ ((ClientAccount.new cid).applyEvents events).held := by
  have h0 : amounts_nonneg (ClientAccount.new cid).transaction_history := by
    intro p hp
    simp [ClientAccount.new] at hp
  have h2 : disputed_deposit_sum (ClientAccount.new cid).transaction_history ≤
      (ClientAccount.new cid).held := by
    simp [ClientAccount.new, disputed_deposit_sum]
  rcases heldInv_run (ClientAccount.new cid) events h0 h2 hev with ⟨g1, g2⟩
  have := disputed_deposit_sum_nonneg _ g1
  linarith

/-- Witness for the amended C2 on a two-event stream. -/
theorem held_nonneg_witness :
    0 ≤ ((ClientAccount.new 1).applyEvents
      [Event.transaction (Transaction.Deposit 1 1 2),
       Event.disputeAction (DisputeAction.Dispute 1 1)]).held :=
  held_nonneg 1
    [Event.transaction (Transaction.Deposit 1 1 2),
     Event.disputeAction (DisputeAction.Dispute 1 1)]
    (by norm_num [Event.nonneg_amount, Transaction.amount])

theorem eventTxIds_cons_transaction (t : Transaction) (rest : List Event) :
    eventTxIds (Event.transaction t :: rest) =
      t.get_transaction_id :: eventTxIds rest := rfl

theorem eventTxIds_cons_dispute (d : DisputeAction) (rest : List Event) :
    eventTxIds (Event.disputeAction d :: rest) = eventTxIds rest := rfl

theorem applyEvent_lookup_none (a : ClientAccount) (ev : Event) (id2 : Nat)
    (hnone : alistLookup a.transaction_history id2 = none)
    (hne : ∀ t, ev = Event.transaction t → t.get_transaction_id ≠ id2) :
    alistLookup (a.applyEvent ev).transaction_history id2 = none := by
  cases ev with
  | transaction t =>
      cases t with
      | Deposit c tid amt =>
          have hn2 : ¬ id2 = tid :=
            fun hx => hne (Transaction.Deposit c tid amt) rfl hx.symm
          by_cases hc : c = a.id <;> by_cases hlk : a.locked = true <;>
            simp_all [ClientAccount.applyEvent, ClientAccount.add_transaction,
              Transaction.get_client_id, Transaction.get_transaction_id,
              alistLookup_insert]
      | Withdrawal c tid amt =>
          have hn2 : ¬ id2 = tid :=
            fun hx => hne (Transaction.Withdrawal c tid amt) rfl hx.symm
          by_cases hc : c = a.id <;> by_cases hlk : a.locked = true <;>
            by_cases hw : a.withdrawal_amount_allowed amt = true <;>
              simp_all [ClientAccount.applyEvent, ClientAccount.add_transaction,
                Transaction.get_client_id, Transaction.get_transaction_id,
                alistLookup_insert]
  | disputeAction d =>
      by_cases hc : d.get_client_id = a.id
      case neg =>
        have he : a.applyEvent (Event.disputeAction d) = a := by
          simp [ClientAccount.applyEvent, ClientAccount.add_dispute_action, hc]
        rw [he]
        exact hnone
      case pos =>
        by_cases hlk : a.locked = true
        · have he : a.applyEvent (Event.disputeAction d) =
              { a with dispute_history := a.dispute_history ++ [d] } := by
            simp [ClientAccount.applyEvent, ClientAccount.add_dispute_action, hc, hlk]
          rw [he]
          exact hnone
        · cases hh : alistLookup a.transaction_history d.get_referenced_transaction_id with
          | none =>
              have he : a.applyEvent (Event.disputeAction d) = a := by
                cases d <;>
                  simp_all [ClientAccount.applyEvent, ClientAccount.add_dispute_action,
                    DisputeAction.get_client_id, DisputeAction.get_referenced_transaction_id]
              rw [he]
              exact hnone
          | some r =>
              obtain ⟨tx, st⟩ := r
              cases st <;> cases d <;> cases tx <;>
                simp_all [ClientAccount.applyEvent, ClientAccount.add_dispute_action,
                  DisputeAction.get_client_id, DisputeAction.get_referenced_transaction_id,
                  alistLookup_set_state] <;>
                (intro heq
                 rw [heq] at hnone
                 rw [hnone] at hh
                 exact Option.noConfusion hh)

theorem heldEq_step (a : ClientAccount) (ev : Event)
    (h2 : a.held = disputed_deposit_sum a.transaction_history)
    (hfresh : ∀ t, ev = Event.transaction t →
      alistLookup a.transaction_history t.get_transaction_id = none) :
    (a.applyEvent ev).held =
      disputed_deposit_sum (a.applyEvent ev).transaction_history := by
  cases ev with
  | transaction t =>
      have hf : alistLookup a.transaction_history t.get_transaction_id = none :=
        hfresh t rfl
      by_cases hc : t.get_client_id = a.id
      case neg =>
        have he : a.applyEvent (Event.transaction t) = a := by
          simp [ClientAccount.applyEvent, ClientAccount.add_transaction, hc]
        rw [he]
        exact h2
      case pos =>
        by_cases hlk : a.locked = true
        · have he : a.applyEvent (Event.transaction t) =
              { a with transaction_history := (alistInsert a.transaction_history
                  t.get_transaction_id (TransactionHistoryRecord.new t false)) } := by
            simp [ClientAccount.applyEvent, ClientAccount.add_transaction, hc, hlk]
          rw [he]
          have hcv : contribution (TransactionHistoryRecord.new t false) = 0 := by
            cases t <;> simp [contribution, TransactionHistoryRecord.new]
          simp only [disputed_deposit_sum_insert_none _ _ _ hf, hcv]
          simpa using h2
        · cases t with
          | Deposit c2 id2 amt =>
              have he : a.applyEvent (Event.transaction (Transaction.Deposit c2 id2 amt)) =
                  { a with
                      available := a.available + amt,
                      transaction_history := (alistInsert a.transaction_history id2
                        (TransactionHistoryRecord.new
                          (Transaction.Deposit c2 id2 amt) true)) } := by
                simp_all [ClientAccount.applyEvent, ClientAccount.add_transaction,
                  Transaction.get_client_id, Transaction.get_transaction_id]
              rw [he]
              have hf2 : alistLookup a.transaction_history id2 = none := hf
              have hcv : contribution (TransactionHistoryRecord.new
                  (Transaction.Deposit c2 id2 amt) true) = 0 := by
                simp [contribution, TransactionHistoryRecord.new]
              simp only [disputed_deposit_sum_insert_none _ _ _ hf2, hcv]
              simpa using h2
          | Withdrawal c2 id2 amt =>
              by_cases hw : a.withdrawal_amount_allowed amt = true
              · have he : a.applyEvent (Event.transaction (Transaction.Withdrawal c2 id2 amt)) =
                    { a with
                        available := a.available - amt,
                        transaction_history := (alistInsert a.transaction_history id2
                          (TransactionHistoryRecord.new
                            (Transaction.Withdrawal c2 id2 amt) true)) } := by
                  simp_all [ClientAccount.applyEvent, ClientAccount.add_transaction,
                    Transaction.get_client_id, Transaction.get_transaction_id]
                rw [he]
                have hf2 : alistLookup a.transaction_history id2 = none := hf
                have hcv : contribution (TransactionHistoryRecord.new
                    (Transaction.Withdrawal c2 id2 amt) true) = 0 := by
                  simp [contribution, TransactionHistoryRecord.new]
                simp only [disputed_deposit_sum_insert_none _ _ _ hf2, hcv]
                simpa using h2
              · have he : a.applyEvent (Event.transaction (Transaction.Withdrawal c2 id2 amt)) =
                    { a with transaction_history := (alistInsert a.transaction_history id2
                        (TransactionHistoryRecord.new
                          (Transaction.Withdrawal c2 id2 amt) false)) } := by
                  simp_all [ClientAccount.applyEvent, ClientAccount.add_transaction,
                    Transaction.get_client_id, Transaction.get_transaction_id]
                rw [he]
                have hf2 : alistLookup a.transaction_history id2 = none := hf
                have hcv : contribution (TransactionHistoryRecord.new
                    (Transaction.Withdrawal c2 id2 amt) false) = 0 := by
                  simp [contribution, TransactionHistoryRecord.new]
                simp only [disputed_deposit_sum_insert_none _ _ _ hf2, hcv]
                simpa using h2
  | disputeAction d =>
      by_cases hc : d.get_client_id = a.id
      case neg =>
        have he : a.applyEvent (Event.disputeAction d) = a := by
          simp [ClientAccount.applyEvent, ClientAccount.add_dispute_action, hc]
        rw [he]
        exact h2
      case pos =>
        by_cases hlk : a.locked = true
        · have he : a.applyEvent (Event.disputeAction d) =
              { a with dispute_history := a.dispute_history ++ [d] } := by
            simp [ClientAccount.applyEvent, ClientAccount.add_dispute_action, hc, hlk]
          rw [he]
          exact h2
        · cases hh : alistLookup a.transaction_history d.get_referenced_transaction_id with
          | none =>
              have he : a.applyEvent (Event.disputeAction d) = a := by
                cases d <;>
                  simp_all [ClientAccount.applyEvent, ClientAccount.add_dispute_action,
                    DisputeAction.get_client_id, DisputeAction.get_referenced_transaction_id]
              rw [he]
              exact h2
          | some r =>
              obtain ⟨tx, st⟩ := r
              cases st <;> cases d <;> cases tx <;>
                simp_all [ClientAccount.applyEvent, ClientAccount.add_dispute_action,
                  DisputeAction.get_client_id, DisputeAction.get_referenced_transaction_id] <;>
                (rw [disputed_deposit_sum_set_state _ _ _ _ hh]
                 simp only [contribution]
                 linarith)

theorem heldEq_run (a : ClientAccount) (events : List Event)
    (h2 : a.held = disputed_deposit_sum a.transaction_history)
    (hfresh : ∀ id2 ∈ eventTxIds events, alistLookup a.transaction_history id2 = none)
    (hnodup : (eventTxIds events).Nodup) :
    (a.applyEvents events).held =
      disputed_deposit_sum (a.applyEvents events).transaction_history := by
  induction events generalizing a with
  | nil => exact h2
  | cons ev rest ih =>
      rw [applyEvents_cons]
      have hstep : (a.applyEvent ev).held =
          disputed_deposit_sum (a.applyEvent ev).transaction_history := by
        apply heldEq_step a ev h2
        intro t ht
        subst ht
        exact hfresh t.get_transaction_id
          (by rw [eventTxIds_cons_transaction]; exact List.mem_cons_self _ _)
      apply ih _ hstep
      · intro id2 hid
        apply applyEvent_lookup_none a ev id2
        · apply hfresh
          cases ev with
          | transaction t =>
              rw [eventTxIds_cons_transaction]
              exact List.mem_cons_of_mem _ hid
          | disputeAction d =>
              rw [eventTxIds_cons_dispute]
              exact hid
        · intro t ht heq
          subst ht
          rw [eventTxIds_cons_transaction, List.nodup_cons] at hnodup
          exact hnodup.1 (by rw [heq]; exact hid)
      · cases ev with
        | transaction t =>
            rw [eventTxIds_cons_transaction, List.nodup_cons] at hnodup
            exact hnodup.2
        | disputeAction d =>
            rw [eventTxIds_cons_dispute] at hnodup
            exact hnodup

/-- C10: starting from a fresh account, for every event sequence whose
transaction ids are pairwise distinct and whose amounts are non-negative, the
held balance equals the sum of the amounts of the deposit transactions whose
history state is currently `Disputed`; in particular `held` is non-negative. -/
theorem held_eq_disputed_deposits (cid : Nat) (events : List Event)
    (hids : (eventTxIds events).Nodup)
    (hamts : ∀ ev ∈ events, ev.nonneg_amount) :
    ((ClientAccount.new cid).applyEvents events).held =
      disputed_deposit_sum
        ((ClientAccount.new cid).applyEvents events).transaction_history ∧
      0 ≤ ((ClientAccount.new cid).applyEvents events).held := by
  constructor
  · exact heldEq_run (ClientAccount.new cid) events rfl (fun id2 _ => rfl) hids
  · have h0 : amounts_nonneg (ClientAccount.new cid).transaction_history := by
      intro p hp
      simp [ClientAccount.new] at hp
    have h2 : disputed_deposit_sum (ClientAccount.new cid).transaction_history ≤
        (ClientAccount.new cid).held := by
      simp [ClientAccount.new, disputed_deposit_sum]
    rcases heldInv_run (ClientAccount.new cid) events h0 h2 hamts with ⟨g1, g2⟩
    have := disputed_deposit_sum_nonneg _ g1
    linarith

/-- Witness for C10: deposit then dispute; `held = 2` equals the disputed
deposit sum and is non-negative. -/
theorem held_eq_disputed_deposits_witness :
    ((ClientAccount.new 1).applyEvents
        [Event.transaction (Transaction.Deposit 1 1 2),
         Event.disputeAction (DisputeAction.Dispute 1 1)]).held =
      disputed_deposit_sum ((ClientAccount.new 1).applyEvents
        [Event.transaction (Transaction.Deposit 1 1 2),
         Event.disputeAction (DisputeAction.Dispute 1 1)]).transaction_history ∧
      0 ≤ ((ClientAccount.new 1).applyEvents
        [Event.transaction (Transaction.Deposit 1 1 2),
         Event.disputeAction (DisputeAction.Dispute 1 1)]).held :=
  held_eq_disputed_deposits 1
    [Event.transaction (Transaction.Deposit 1 1 2),
     Event.disputeAction (DisputeAction.Dispute 1 1)]
    (by simp [eventTxIds, Event.transaction_id, Transaction.get_transaction_id])
    (by norm_num [Event.nonneg_amount, Transaction.amount])

/-! ### The engine never panics -/

theorem add_transaction_ok (a : ClientAccount) (t : Transaction)
    (hc : t.get_client_id = a.id) :
    ∃ a2, a.add_transaction t = Except.ok a2 ∧ a2.id = a.id := by
  by_cases hlk : a.locked = true
  · cases t <;>
      simp_all [ClientAccount.add_transaction, Transaction.get_client_id]
  · cases t with
    | Deposit c tid amt =>
        simp_all [ClientAccount.add_transaction, Transaction.get_client_id]
    | Withdrawal c tid amt =>
        by_cases hw : a.withdrawal_amount_allowed amt = true <;>
          simp_all [ClientAccount.add_transaction, Transaction.get_client_id]

theorem add_dispute_action_ok (a : ClientAccount) (d : DisputeAction)
    (hc : d.get_client_id = a.id) :
    ∃ a2, a.add_dispute_action d = Except.ok a2 ∧ a2.id = a.id := by
  by_cases hlk : a.locked = true
  · cases d <;>
      simp_all [ClientAccount.add_dispute_action, DisputeAction.get_client_id]
  · cases hh : alistLookup a.transaction_history d.get_referenced_transaction_id with
    | none =>
        cases d <;>
          simp_all [ClientAccount.add_dispute_action, DisputeAction.get_client_id,
            DisputeAction.get_referenced_transaction_id]
    | some r =>
        obtain ⟨tx, st⟩ := r
        cases st <;> cases d <;> cases tx <;>
          simp_all [ClientAccount.add_dispute_action, DisputeAction.get_client_id,
            DisputeAction.get_referenced_transaction_id]

/-- Engine well-formedness: every stored account's id equals its key.  This
holds by construction (accounts are only created via `ClientAccount.new` at
their own key) and is preserved by every event. -/
def EngineWF (e : PaymentEngine) : Prop :=
  ∀ k c, alistLookup e.state k = some c → c.id = k

theorem engineWF_default : EngineWF PaymentEngine.default := by
  intro k c h
  simp [PaymentEngine.default, alistLookup] at h

theorem engineWF_step (e : PaymentEngine) (ev : Event) (h : EngineWF e) :
    ∃ e2, e.applyEvent ev = some e2 ∧ EngineWF e2 := by
  cases ev with
  | transaction t =>
      have hcid : (match alistLookup e.state t.get_client_id with
          | some c => c
          | none => ClientAccount.new t.get_client_id).id = t.get_client_id := by
        cases hl : alistLookup e.state t.get_client_id with
        | some c => exact h _ _ hl
        | none => rfl
      obtain ⟨a2, ha2, hid⟩ := add_transaction_ok _ t hcid.symm
      refine ⟨{ state := alistInsert e.state t.get_client_id a2 }, ?_, ?_⟩
      · simp [PaymentEngine.applyEvent, PaymentEngine.add_transaction, ha2]
      · intro k c hk
        rw [alistLookup_insert] at hk
        by_cases hkc : k = t.get_client_id
        · rw [if_pos hkc] at hk
          have hca2 : c = a2 := by
            injection hk with hk2
            exact hk2.symm
          rw [hca2, hid, hcid, hkc]
        · rw [if_neg hkc] at hk
          exact h _ _ hk
  | disputeAction d =>
      have hcid : (match alistLookup e.state d.get_client_id with
          | some c => c
          | none => ClientAccount.new d.get_client_id).id = d.get_client_id := by
        cases hl : alistLookup e.state d.get_client_id with
        | some c => exact h _ _ hl
        | none => rfl
      obtain ⟨a2, ha2, hid⟩ := add_dispute_action_ok _ d hcid.symm
      refine ⟨{ state := alistInsert e.state d.get_client_id a2 }, ?_, ?_⟩
      · simp [PaymentEngine.applyEvent, PaymentEngine.add_dispute_action, ha2]
      · intro k c hk
        rw [alistLookup_insert] at hk
        by_cases hkc : k = d.get_client_id
        · rw [if_pos hkc] at hk
          have hca2 : c = a2 := by
            injection hk with hk2
            exact hk2.symm
          rw [hca2, hid, hcid, hkc]
        · rw [if_neg hkc] at hk
          exact h _ _ hk

theorem engine_runFrom_isSome (e : PaymentEngine) (events : List Event)
    (h : EngineWF e) : (e.runFrom events).isSome = true := by
  induction events generalizing e with
  | nil => rfl
  | cons ev rest ih =>
      obtain ⟨e2, he2, hwf⟩ := engineWF_step e ev h
      simp [PaymentEngine.runFrom, he2]
      exact ih e2 hwf

/-- C9: feeding any stream of well-typed events into a fresh `PaymentEngine`
never reaches the `.expect` panic: the inner error branch (client-id mismatch)
is unreachable because the engine always looks up or creates the account under
the event's own client id. -/
theorem engine_never_panics (events : List Event) :
    (PaymentEngine.run events).isSome = true :=
  engine_runFrom_isSome PaymentEngine.default events engineWF_default
